import Mathlib

/-
  Shallow embedding of `miniocr` (src/miniocr/ocr.py) and proofs about it.

  The embedding follows the source closely:
  * filename-extension detection (`is_image_file`, `is_pdf_file`, `is_pptx_file`),
  * URL handling of `download_file` (filename derivation; the fetch is recorded
    as an `Event.download` in the event trace),
  * `pptx_to_images` (native LibreOffice conversion with its fallback chain),
  * `pptx_to_images_fallback` (text extraction producing 800x600 placeholders),
  * `find_libreoffice_executable`,
  * the top-level `ocr` coroutine: branch on file type, transcribe every page
    image through the vision endpoint (modelled by an environment function),
    join the results (`"\n\n".join(results) if len(results) > 1 else results[0]`),
    and return the outcome dictionary.  The `with tempfile.TemporaryDirectory()`
    block is modelled by the `scratchRemoved` field of the result, which the
    context manager sets on every exit path; the `cleanup` argument is accepted
    and, as in the source, never read.
  * the semaphore-bounded concurrent execution of the per-page tasks
    (lines 280-288) is modelled by a small labelled transition system
    (`ExecState` / `ExecStep`): a task may start only while fewer than
    `c` tasks run, and finishing a task frees its slot and appends its
    result, in completion order, to the `done` log.  `asyncio.gather`'s
    reassembly by task index is `gatherResults`.
-/

namespace MiniOCR

/-! Character-level models of the Python `str` methods the source uses
(`lower`, `endswith`, `startswith`, `split`, `strip`).  They are written by
structural recursion over the character list of the string so that concrete
inputs evaluate inside the kernel. -/

/-- Python `s.lower()` (ASCII model, as used on filename extensions). -/
def pyLower (s : String) : String :=
  ⟨s.data.map Char.toLower⟩

/-- Python `s.endswith(t)`. -/
def pyEndsWith (s t : String) : Bool :=
  t.data.isSuffixOf s.data

/-- Python `s.startswith(t)`. -/
def pyStartsWith (s t : String) : Bool :=
  t.data.isPrefixOf s.data

/-- Split a character list at every occurrence of `c` (Python `s.split(c)`
for a one-character separator: always at least one piece). -/
def splitCL (c : Char) : List Char → List (List Char)
  | [] => [[]]
  | x :: xs =>
    match splitCL c xs with
    | [] => [[]]
    | h :: t => if x == c then [] :: h :: t else (x :: h) :: t

/-- Python `s.split(c)` for a one-character separator. -/
def pySplitChar (c : Char) (s : String) : List String :=
  (splitCL c s.data).map (fun l => ⟨l⟩)

/-- Python `s.strip()`: remove leading and trailing whitespace. -/
def pyStrip (s : String) : String :=
  ⟨((s.data.dropWhile Char.isWhitespace).reverse.dropWhile Char.isWhitespace).reverse⟩

/-- The recognized image filename extensions (ocr.py line 41). -/
def image_extensions : List String :=
  [".png", ".jpg", ".jpeg", ".gif", ".bmp", ".tiff", ".webp"]

/-- Model of `MiniOCR.is_image_file`: case-insensitive extension check against the image set
(Python `file_path.lower().endswith(image_extensions)`). -/
def is_image_file (file_path : String) : Bool :=
  image_extensions.any (fun ext => pyEndsWith (pyLower file_path) ext)

/-- Model of `MiniOCR.is_pdf_file` (ocr.py line 46). -/
def is_pdf_file (file_path : String) : Bool :=
  pyEndsWith (pyLower file_path) ".pdf"

/-- Model of `MiniOCR.is_pptx_file` (ocr.py line 50). -/
def is_pptx_file (file_path : String) : Bool :=
  pyEndsWith (pyLower file_path) ".pptx"

/-- Model of `url.startswith(('http://', 'https://'))` in `download_file` (ocr.py line 97). -/
def isRemoteUrl (s : String) : Bool :=
  pyStartsWith s "http://" || pyStartsWith s "https://"

/-- Model of `os.path.basename` on a POSIX path: the part after the last `/`. -/
def basename (p : String) : String :=
  (pySplitChar '/' p).getLastD ""

/-- The filename `download_file` stores a fetched URL under
(`os.path.basename(url.split('?')[0]) or 'document'`, ocr.py line 100). -/
def urlFilename (url : String) : String :=
  let beforeQuery := (pySplitChar '?' url).headD ""
  let b := basename beforeQuery
  if b = "" then "document" else b

/-- The local path `ocr` works on after `download_file`: for URLs the fetched
file (named by `urlFilename`), otherwise the given path unchanged. -/
def localName (file_path : String) : String :=
  if isRemoteUrl file_path then urlFilename file_path else file_path

/-- Observable network events of one `ocr` call: the HTTP fetch performed by
`download_file`, and one vision-endpoint request per page (`process_image`). -/
inductive Event where
  | download
  | visionCall (image_path : String)
deriving DecidableEq, Repr

/-- Errors an `ocr` call can raise: the `ValueError("Unsupported file type: ...")`
of line 320, a propagated `process_image` failure (first exception raised out of
`asyncio.gather`), and the `IndexError` from `results[0]` on an empty list. -/
inductive OcrError where
  | unsupported (path : String)
  | transcription (msg : String)
  | indexError
deriving DecidableEq, Repr

/-- The dictionary returned by `ocr` (ocr.py lines 330-334). -/
structure ConversionOutcome where
  content : String
  pages : Nat
  file_name : String
deriving DecidableEq, Repr

/-- Environment of one `ocr` call: the remote transcription of one page image
(`process_image`, which either returns markdown or raises), and the page-image
lists the two renderers produce for this document. -/
structure OcrEnv where
  tr : String → Except String String
  pptxImages : List String
  pdfImages : List String

/-- Model of `markdown_content = "\n\n".join(results) if len(results) > 1 else results[0]`
(ocr.py line 289): `none` models the `IndexError` of `results[0]` on `[]`. -/
def assembleContent (results : List String) : Option String :=
  if 1 < results.length then some (String.intercalate "\n\n" results)
  else results.head?

/-- The per-page transcription of every page image, in ascending page order,
failing with the first error in index order (`asyncio.gather` with default
`return_exceptions` collects all results or propagates the failure). -/
def processBatch (tr : String → Except String String) :
    List String → Except String (List String)
  | [] => .ok []
  | p :: rest =>
    match tr p with
    | .error e => .error e
    | .ok t =>
      match processBatch tr rest with
      | .error e => .error e
      | .ok ts => .ok (t :: ts)

/-- The page-image list the branch chain of `ocr` selects (lines 276-320):
pptx first, then image (the file itself is the single page), then pdf;
`none` is the `else: raise ValueError` branch. -/
def renderedPages (env : OcrEnv) (name : String) : Option (List String) :=
  if is_pptx_file name then some env.pptxImages
  else if is_image_file name then some [name]
  else if is_pdf_file name then some env.pdfImages
  else none

/-- Result of one `ocr` call: its outcome (or error), the network events it
performed, and whether the scratch directory was removed on exit. -/
structure OcrResult where
  outcome : Except OcrError ConversionOutcome
  events : List Event
  scratchRemoved : Bool
deriving Repr

/-- Model of `MiniOCR.ocr` (ocr.py lines 250-334).  The whole body runs inside
`with tempfile.TemporaryDirectory() as temp_dir:`, so the scratch directory is
removed on every exit path; the `cleanup` argument is never read by the body. -/
def ocr (env : OcrEnv) (file_path : String) (cleanup : Bool) : OcrResult :=
  let name := localName file_path
  let dl := if isRemoteUrl file_path then [Event.download] else []
  match renderedPages env name with
  | none => ⟨.error (.unsupported name), dl, true⟩
  | some paths =>
    match processBatch env.tr paths with
    | .error e => ⟨.error (.transcription e), dl ++ paths.map Event.visionCall, true⟩
    | .ok results =>
      match assembleContent results with
      | none => ⟨.error .indexError, dl ++ paths.map Event.visionCall, true⟩
      | some content =>
        ⟨.ok ⟨content, results.length, basename name⟩,
          dl ++ paths.map Event.visionCall, true⟩

/-- One shape of a pptx slide: whether it carries a `text` attribute
(`hasattr(shape, "text")`) and that text. -/
structure Shape where
  hasTextAttr : Bool
  text : String
deriving DecidableEq, Repr

/-- A slide is its list of shapes. -/
structure Slide where
  shapes : List Shape
deriving DecidableEq, Repr

/-- Model of `hasattr(shape, "text") and shape.text.strip()` (ocr.py line 191). -/
def shapeContributes (sh : Shape) : Bool :=
  sh.hasTextAttr && !(pyStrip sh.text == "")

/-- Model of `if slide_text:` — the slide collected at least one text-bearing shape. -/
def slideHasText (s : Slide) : Bool :=
  s.shapes.any shapeContributes

/-- One placeholder image written by `pptx_to_images_fallback`:
`Image.new('RGB', (800, 600), color='white')` saved as
`slide_{i+1}.png` for slide index `i` (0-based). -/
structure PlaceholderImage where
  path : String
  slideNumber : Nat
  width : Nat
  height : Nat
  color : String
deriving DecidableEq, Repr

/-- Model of `MiniOCR.pptx_to_images_fallback` (ocr.py lines 181-201): for each slide,
in slide order, emit one 800x600 white placeholder image named after the
slide's 1-based position when the slide has any non-empty shape text;
slides with no such text produce no page. -/
def pptx_to_images_fallback (temp_dir : String) (slides : List Slide) :
    List PlaceholderImage :=
  (slides.enum.filter (fun p => slideHasText p.2)).map
    (fun p =>
      ⟨temp_dir ++ "/slide_" ++ toString (p.1 + 1) ++ ".png", p.1 + 1, 800, 600, "white"⟩)

/-- Python truthiness test `if not soffice_executable:` on an `Optional[str]`. -/
def pyFalsyStrOpt : Option String → Bool
  | none => true
  | some s => s == ""

/-- The outcome of the `subprocess.run(command_list, ..., timeout=60)` call of
`pptx_to_images`: `timeout` is a `subprocess.TimeoutExpired`, `raised` is any
other exception out of `subprocess.run` (for example `FileNotFoundError` for a
missing executable), `exited rc` a completed run with return code `rc`. -/
inductive RunOutcome where
  | timeout
  | raised
  | exited (returncode : Int)
deriving DecidableEq, Repr

/-- Why `pptx_to_images` fell back to text extraction. -/
inductive FallbackCause where
  | execNotFound
  | timeout
  | nonzeroExit (returncode : Int)
  | missingPdf
  | exceptionCaught
deriving DecidableEq, Repr

/-- Result of the pptx rendering stage: native LibreOffice-rendered images,
the text-extraction fallback (with the cause that triggered it), or a
conversion-tool error propagated to the caller (never produced; present so
that "never surfaced" is a statement about the code, not about the type). -/
inductive RenderOutcome where
  | native (imgs : List String)
  | fallbackUsed (cause : FallbackCause) (imgs : List String)
  | toolError (msg : String)
deriving DecidableEq, Repr

/-- Model of `MiniOCR.pptx_to_images` (ocr.py lines 120-179), parametrised by the
environment outcomes of its effectful steps: the located executable
(`soffice`), the conversion run (`run`), whether the output PDF exists
(`pdfCreated`), the rasterisation result (`raster`, `none` when
`convert_from_bytes` or the PDF read raises), and the images the text
fallback would produce (`fb`).  The whole body sits in
`try: ... except Exception: return fallback`, so `raised` run outcomes and
rasterisation exceptions are caught and also fall back. -/
def pptx_to_images (soffice : Option String) (run : RunOutcome)
    (pdfCreated : Bool) (raster : Option (List String)) (fb : List String) :
    RenderOutcome :=
  if pyFalsyStrOpt soffice then .fallbackUsed .execNotFound fb
  else
    match run with
    | .timeout => .fallbackUsed .timeout fb
    | .raised => .fallbackUsed .exceptionCaught fb
    | .exited rc =>
      if rc ≠ 0 then .fallbackUsed (.nonzeroExit rc) fb
      else if !pdfCreated then .fallbackUsed .missingPdf fb
      else
        match raster with
        | none => .fallbackUsed .exceptionCaught fb
        | some imgs => .native imgs

/-- A failure of the native conversion stage of `pptx_to_images`: executable
lookup came back falsy, the run timed out / raised / exited non-zero, the
output PDF is missing, or rasterisation raised. -/
def nativeStageFails (soffice : Option String) (run : RunOutcome)
    (pdfCreated : Bool) (raster : Option (List String)) : Bool :=
  pyFalsyStrOpt soffice ||
    (match run with
     | .timeout => true
     | .raised => true
     | .exited rc => rc ≠ 0 || !pdfCreated || raster.isNone)

/-- The filesystem / platform state `find_libreoffice_executable` consults:
the platform, which executable names the `which`/`where` probe reports found
(return code 0 and non-empty stdout; a probe that raises or fails counts as
not found and is skipped), and which paths are executable regular files. -/
structure FsEnv where
  windows : Bool
  whichFound : String → Bool
  execFile : String → Bool

/-- The candidate executable names of `find_libreoffice_executable`. -/
def executable_names (windows : Bool) : List String :=
  if windows then ["soffice.exe", "soffice"] else ["soffice", "libreoffice"]

/-- The well-known install locations of `find_libreoffice_executable`. -/
def common_paths (windows : Bool) : List String :=
  if windows then
    ["C:\\Program Files\\LibreOffice\\program\\soffice.exe",
     "C:\\Program Files (x86)\\LibreOffice\\program\\soffice.exe",
     "C:\\LibreOffice\\program\\soffice.exe"]
  else
    ["/usr/bin/soffice",
     "/usr/local/bin/soffice",
     "/opt/libreoffice/program/soffice",
     "/Applications/LibreOffice.app/Contents/MacOS/soffice"]

/-- Model of `MiniOCR.find_libreoffice_executable` (ocr.py lines 52-93): first name the
PATH probe finds, else the first common path that is an executable file, else
— "last resort" — `executable_names[0]` itself. -/
def find_libreoffice_executable (st : FsEnv) : Option String :=
  match (executable_names st.windows).find? st.whichFound with
  | some n => some n
  | none =>
    match (common_paths st.windows).find? st.execFile with
    | some p => some p
    | none => (executable_names st.windows).head?

/-- State of the semaphore-bounded execution of the per-page tasks
(ocr.py lines 280-288): `pending` tasks wait on `semaphore.acquire`,
`running` hold a slot inside `async with semaphore`, `done` logs finished
tasks with their results in completion order. -/
structure ExecState (ρ : Type) where
  pending : List Nat
  running : List Nat
  done : List (Nat × ρ)
deriving DecidableEq, Repr

/-- One scheduler step: `start` admits a waiting task when fewer than `c`
tasks hold a slot (`asyncio.Semaphore(c)`); `finish` completes a running
task with its result `tr i` and releases the slot — unconditionally, since
`async with semaphore` releases on both normal and exceptional exit. -/
inductive ExecStep (tr : Nat → ρ) (c : Nat) : ExecState ρ → ExecState ρ → Prop where
  | start (s : ExecState ρ) (i : Nat) (hmem : i ∈ s.pending)
      (hlt : s.running.length < c) :
      ExecStep tr c s ⟨s.pending.erase i, i :: s.running, s.done⟩
  | finish (s : ExecState ρ) (i : Nat) (hmem : i ∈ s.running) :
      ExecStep tr c s ⟨s.pending, s.running.erase i, s.done ++ [(i, tr i)]⟩

/-- Initial state: all `N` page tasks created (in index order), none yet
admitted by the semaphore, none finished. -/
def initState (ρ : Type) (N : Nat) : ExecState ρ :=
  ⟨List.range N, [], []⟩

/-- States one schedule of the executor can reach. -/
def Reachable (tr : Nat → ρ) (c N : Nat) (s : ExecState ρ) : Prop :=
  Relation.ReflTransGen (ExecStep tr c) (initState ρ N) s

/-- Collect, for each task index in the given order, its result from the
completion log; `none` when some index has no logged result. -/
def collectResults (done : List (Nat × ρ)) : List Nat → Option (List ρ)
  | [] => some []
  | i :: rest =>
    match done.lookup i, collectResults done rest with
    | some r, some rs => some (r :: rs)
    | _, _ => none

/-- Model of `asyncio.gather`'s reassembly: the result list is indexed by task
creation order (page index `0, ..., N-1`), each entry looked up from the
completion log — never by completion order. -/
def gatherResults (N : Nat) (done : List (Nat × ρ)) : Option (List ρ) :=
  collectResults done (List.range N)

/-! Helper lemmas -/

/-- Invariant of the bounded executor: the running set respects the semaphore
cap, the tasks are exactly `0, ..., N-1` split among pending / running / done,
and every logged result is the task's transcription. -/
def execInvariant (tr : Nat → ρ) (c N : Nat) (s : ExecState ρ) : Prop :=
  s.running.length ≤ c
  ∧ ((s.pending ++ s.running) ++ s.done.map Prod.fst).Perm (List.range N)
  ∧ ∀ p ∈ s.done, p.2 = tr p.1

theorem execInvariant_init (tr : Nat → ρ) (c N : Nat) :
    execInvariant tr c N (initState ρ N) := by
  refine ⟨by simp [initState], by simp [initState], by simp [initState]⟩

theorem execInvariant_step {tr : Nat → ρ} {c N : Nat} {s s' : ExecState ρ}
    (h : execInvariant tr c N s) (hs : ExecStep tr c s s') :
    execInvariant tr c N s' := by
  obtain ⟨hlen, hperm, hval⟩ := h
  cases hs with
  | start i hmem hlt =>
    refine ⟨by simpa using hlt, ?_, hval⟩
    have h1 : ((s.pending.erase i ++ (i :: s.running)) ++ s.done.map Prod.fst).Perm
        ((i :: (s.pending.erase i ++ s.running)) ++ s.done.map Prod.fst) :=
      List.Perm.append_right _ List.perm_middle
    have h2 : (s.pending ++ s.running).Perm (i :: (s.pending.erase i ++ s.running)) :=
      List.Perm.append_right _ (List.perm_cons_erase hmem)
    exact h1.trans ((List.Perm.append_right _ h2.symm).trans hperm)
  | finish i hmem =>
    refine ⟨le_trans (List.Sublist.length_le (List.erase_sublist i s.running)) hlen,
      ?_, ?_⟩
    · have hmap : (s.done ++ [(i, tr i)]).map Prod.fst = s.done.map Prod.fst ++ [i] := by
        simp
      rw [hmap]
      have hrun : s.running.Perm (i :: s.running.erase i) := List.perm_cons_erase hmem
      have h3 : (s.pending ++ s.running).Perm
          (i :: (s.pending ++ s.running.erase i)) :=
        (List.Perm.append_left s.pending hrun).trans List.perm_middle
      have h4 : ((s.pending ++ s.running.erase i) ++ (s.done.map Prod.fst ++ [i])).Perm
          ((i :: (s.pending ++ s.running.erase i)) ++ s.done.map Prod.fst) := by
        rw [← List.append_assoc]
        exact List.perm_append_singleton _ _
      exact h4.trans ((List.Perm.append_right _ h3.symm).trans hperm)
    · intro p hp
      rcases List.mem_append.mp hp with hp | hp
      · exact hval p hp
      · simp at hp
        subst hp
        rfl

theorem reachable_invariant {tr : Nat → ρ} {c N : Nat} {s : ExecState ρ}
    (h : Reachable tr c N s) : execInvariant tr c N s := by
  induction h with
  | refl => exact execInvariant_init tr c N
  | tail _ hstep ih => exact execInvariant_step ih hstep

/-- Looking up a logged task finds its transcription. -/
theorem lookup_done_eq {tr : Nat → ρ} {i : Nat} {done : List (Nat × ρ)}
    (hmem : i ∈ done.map Prod.fst) (hval : ∀ p ∈ done, p.2 = tr p.1) :
    done.lookup i = some (tr i) := by
  induction done with
  | nil => simp at hmem
  | cons q rest ih =>
    obtain ⟨k, v⟩ := q
    by_cases hik : i = k
    · subst hik
      have hv : v = tr i := hval (i, v) (by simp)
      simp [List.lookup, hv]
    · have hne : (i == k) = false := by simp [hik]
      have hmem' : i ∈ rest.map Prod.fst := by
        rcases List.mem_cons.mp hmem with h | h
        · exact absurd h hik
        · exact h
      have hval' : ∀ p ∈ rest, p.2 = tr p.1 :=
        fun p hp => hval p (List.mem_cons_of_mem _ hp)
      simp [List.lookup, hne, ih hmem' hval']

theorem collectResults_eq_map {tr : Nat → ρ} {done : List (Nat × ρ)}
    {l : List Nat} (h : ∀ i ∈ l, done.lookup i = some (tr i)) :
    collectResults done l = some (l.map tr) := by
  induction l with
  | nil => simp [collectResults]
  | cons a t ih =>
    have ha := h a (by simp)
    have ht := ih (fun i hi => h i (by simp [hi]))
    simp [collectResults, ha, ht]

theorem processBatch_ok_length {tr : String → Except String String} :
    ∀ {paths ts : List String}, processBatch tr paths = .ok ts →
      ts.length = paths.length := by
  intro paths
  induction paths with
  | nil =>
    intro ts h
    simp [processBatch] at h
    simp [← h]
  | cons p rest ih =>
    intro ts h
    cases htr : tr p with
    | error e => simp [processBatch, htr] at h
    | ok t =>
      cases hr : processBatch tr rest with
      | error e => simp [processBatch, htr, hr] at h
      | ok ts' =>
        simp [processBatch, htr, hr] at h
        rw [← h]
        simp [ih hr]

theorem assembleContent_isSome {ts : List String} (h : ts ≠ []) :
    ∃ cont, assembleContent ts = some cont := by
  by_cases hgt : 1 < ts.length
  · exact ⟨String.intercalate "\n\n" ts, by simp [assembleContent, hgt]⟩
  · cases ts with
    | nil => exact absurd rfl h
    | cons t rest =>
      have hr : rest = [] := by
        cases rest with
        | nil => rfl
        | cons b m => exact absurd (by simp) hgt
      subst hr
      exact ⟨t, rfl⟩

theorem length_filter_enumFrom (q : α → Bool) :
    ∀ (n : Nat) (l : List α),
      ((List.enumFrom n l).filter (fun p => q p.2)).length = (l.filter q).length := by
  intro n l
  induction l generalizing n with
  | nil => rfl
  | cons a t ih =>
    by_cases hq : q a
    · simp [List.enumFrom, List.filter, hq, ih]
    · simp [List.enumFrom, List.filter, hq, ih]

theorem executable_names_ne_empty (w : Bool) : ∀ s ∈ executable_names w, s ≠ "" := by
  cases w <;> decide

theorem common_paths_ne_empty (w : Bool) : ∀ p ∈ common_paths w, p ≠ "" := by
  cases w <;> decide

theorem executable_names_head (w : Bool) :
    ∃ n, (executable_names w).head? = some n ∧ n ≠ "" := by
  cases w
  · exact ⟨"soffice", rfl, by decide⟩
  · exact ⟨"soffice.exe", rfl, by decide⟩

/-! Claim theorems -/

/-- C1: for every document that renders to `N ≥ 1` page images and whose
per-page transcriptions all succeed, `ocr` returns an outcome whose `pages`
field equals `N` and whose `content` field is the per-page transcription
texts joined in ascending page-index order by `"\n\n"` when `N > 1`, and is
exactly the single transcription text verbatim when `N = 1`. -/
theorem ocr_pages_and_joined_content (env : OcrEnv) (file_path : String)
    (cleanup : Bool) (paths ts : List String)
    (hrender : renderedPages env (localName file_path) = some paths)
    (hok : processBatch env.tr paths = .ok ts)
    (hN : 1 ≤ paths.length) :
    ∃ oc, (ocr env file_path cleanup).outcome = .ok oc
      ∧ oc.pages = paths.length
      ∧ (1 < paths.length → oc.content = String.intercalate "\n\n" ts)
      ∧ (∀ t, ts = [t] → oc.content = t) := by
  have hl : ts.length = paths.length := processBatch_ok_length hok
  by_cases hgt : 1 < ts.length
  · refine ⟨⟨String.intercalate "\n\n" ts, ts.length, basename (localName file_path)⟩,
      ?_, hl, fun _ => rfl, ?_⟩
    · simp [ocr, hrender, hok, assembleContent, hgt]
    · intro t ht
      rw [ht] at hgt
      simp at hgt
  · have h1 : ts.length = 1 := by omega
    obtain ⟨t, ht⟩ : ∃ t, ts = [t] := by
      cases ts with
      | nil => simp at h1
      | cons a l =>
        cases l with
        | nil => exact ⟨a, rfl⟩
        | cons b m => simp at h1
    subst ht
    have hl1 : 1 = paths.length := by simpa using hl
    refine ⟨⟨t, 1, basename (localName file_path)⟩, ?_, hl1, ?_, ?_⟩
    · simp [ocr, hrender, hok, assembleContent]
    · intro hcontra
      exact absurd hcontra (by omega)
    · intro t' ht'
      simp at ht'
      rw [ht']

def envDemo : OcrEnv :=
  ⟨fun p => .ok ("md:" ++ p), ["s1.png"], ["p1.png", "p2.png"]⟩

theorem ocr_pages_and_joined_content_witness :
    ∃ oc, (ocr envDemo "doc.pdf" true).outcome = .ok oc
      ∧ oc.pages = (["p1.png", "p2.png"] : List String).length
      ∧ (1 < (["p1.png", "p2.png"] : List String).length →
          oc.content = String.intercalate "\n\n" ["md:p1.png", "md:p2.png"])
      ∧ (∀ t, (["md:p1.png", "md:p2.png"] : List String) = [t] → oc.content = t) :=
  ocr_pages_and_joined_content envDemo "doc.pdf" true ["p1.png", "p2.png"]
    ["md:p1.png", "md:p2.png"] (by rfl) (by rfl) (by decide)

/-- C4 (amended: restricted to documents rendering to at least one page; a
zero-page document makes all — vacuously zero — transcriptions succeed, yet
`ocr` raises `IndexError` instead of returning an outcome, see the
counterexample): `ocr` returns an outcome iff all per-page transcriptions
succeed, and if the batch fails then `ocr` fails with the propagated
transcription error — no partial outcome. -/
theorem ocr_all_or_nothing (env : OcrEnv) (file_path : String) (cleanup : Bool)
    (paths : List String)
    (hrender : renderedPages env (localName file_path) = some paths)
    (hne : paths ≠ []) :
    ((∃ oc, (ocr env file_path cleanup).outcome = .ok oc) ↔
      (∃ ts, processBatch env.tr paths = .ok ts))
    ∧ (∀ e, processBatch env.tr paths = .error e →
        (ocr env file_path cleanup).outcome = .error (.transcription e)) := by
  constructor
  · constructor
    · rintro ⟨oc, hoc⟩
      cases hpb : processBatch env.tr paths with
      | error e => simp [ocr, hrender, hpb] at hoc
      | ok ts => exact ⟨ts, rfl⟩
    · rintro ⟨ts, hts⟩
      have hl : ts.length = paths.length := processBatch_ok_length hts
      have hne' : ts ≠ [] := by
        intro hcontra
        apply hne
        subst hcontra
        simp at hl
        exact (List.length_eq_zero.mp hl.symm)
      obtain ⟨cont, hcont⟩ := assembleContent_isSome hne'
      refine ⟨⟨cont, ts.length, basename (localName file_path)⟩, ?_⟩
      simp [ocr, hrender, hts, hcont]
  · intro e he
    simp [ocr, hrender, he]

theorem ocr_all_or_nothing_witness :
    ((∃ oc, (ocr envDemo "doc.pdf" true).outcome = .ok oc) ↔
      (∃ ts, processBatch envDemo.tr ["p1.png", "p2.png"] = .ok ts))
    ∧ (∀ e, processBatch envDemo.tr ["p1.png", "p2.png"] = .error e →
        (ocr envDemo "doc.pdf" true).outcome = .error (.transcription e)) :=
  ocr_all_or_nothing envDemo "doc.pdf" true ["p1.png", "p2.png"] (by rfl)
    (by decide)

def envZeroPdf : OcrEnv := ⟨fun p => .ok p, ["s1.png"], []⟩

/-- C4 counterexample: a PDF document rendering to zero page images.  Every
per-page transcription (vacuously) succeeds, yet `ocr` does not return an
outcome — it raises the `IndexError` of `results[0]` — so "ocr returns an
outcome if and only if all N per-page transcriptions succeed" fails at
`N = 0`. -/
theorem ocr_all_or_nothing_counterexample :
    renderedPages envZeroPdf (localName "doc.pdf") = some []
    ∧ processBatch envZeroPdf.tr [] = .ok []
    ∧ (ocr envZeroPdf "doc.pdf" true).outcome = .error .indexError :=
  ⟨rfl, rfl, rfl⟩

/-- C2: for every list of pages and every completion order (schedule) of the
concurrent per-page transcription tasks, the assembled result list is the
same: `asyncio.gather` reassembles by task index, so in every completed
execution the `i`-th entry is the transcription of page `i`, in ascending
page-index order — independent of which remote calls finished first. -/
theorem gather_order_invariant (tr : Nat → String) (c N : Nat)
    (s : ExecState String) (h : Reachable tr c N s)
    (hp : s.pending = []) (hr : s.running = []) :
    gatherResults N s.done = some ((List.range N).map tr) := by
  obtain ⟨-, hperm, hval⟩ := reachable_invariant h
  rw [hp, hr] at hperm
  have hdone : (s.done.map Prod.fst).Perm (List.range N) := by
    simpa using hperm
  have hlook : ∀ i ∈ List.range N, s.done.lookup i = some (tr i) := by
    intro i hi
    exact lookup_done_eq (hdone.mem_iff.mpr hi) hval
  exact collectResults_eq_map hlook

def trDemo : Nat → String := fun i => "page " ++ toString i

theorem gather_order_invariant_witness :
    gatherResults 1 [(0, trDemo 0)] = some ((List.range 1).map trDemo) :=
  gather_order_invariant trDemo 1 1 ⟨[], [], [(0, trDemo 0)]⟩
    (by
      exact Relation.ReflTransGen.head
        (ExecStep.start (initState String 1) 0 (by decide) (by decide))
        (Relation.ReflTransGen.head
          (ExecStep.finish ⟨[], [0], []⟩ 0 (by decide))
          Relation.ReflTransGen.refl))
    rfl rfl

/-- C3: for every schedule under concurrency limit `c ≥ 1`, every reachable
state of the executor has at most `c` transcription tasks in flight; the task
indices are split without loss or duplication among pending / running / done
(so at completion the done log holds exactly one remote call per page, `N` in
total); and from any reachable state, any running task — whether its
transcription succeeds or fails (`tr` is `Except`-valued and arbitrary) — can
finish, releasing exactly one slot. -/
theorem concurrency_bound_holds (tr : Nat → Except String String) (c N : Nat)
    (hc : 1 ≤ c) (s : ExecState (Except String String))
    (h : Reachable tr c N s) :
    s.running.length ≤ c
    ∧ ((s.pending ++ s.running) ++ s.done.map Prod.fst).Perm (List.range N)
    ∧ (s.done.map Prod.fst).Nodup
    ∧ (s.pending = [] → s.running = [] →
        (s.done.map Prod.fst).Perm (List.range N) ∧ s.done.length = N)
    ∧ (∀ i ∈ s.running,
        ExecStep tr c s ⟨s.pending, s.running.erase i, s.done ++ [(i, tr i)]⟩
        ∧ (s.running.erase i).length + 1 = s.running.length) := by
  obtain ⟨hlen, hperm, hval⟩ := reachable_invariant h
  refine ⟨hlen, hperm, ?_, ?_, ?_⟩
  · exact (hperm.nodup_iff.mpr (List.nodup_range N)).of_append_right
  · intro hp hr
    rw [hp, hr] at hperm
    have hdone : (s.done.map Prod.fst).Perm (List.range N) := by
      simpa using hperm
    refine ⟨hdone, ?_⟩
    have := hdone.length_eq
    simpa using this
  · intro i hi
    refine ⟨ExecStep.finish s i hi, ?_⟩
    have h1 := List.length_erase_of_mem hi
    have h2 : 0 < s.running.length := List.length_pos_of_mem hi
    omega

def trDemoE : Nat → Except String String :=
  fun i => if i = 0 then .ok "first page" else .error "transcription failed"

theorem concurrency_bound_holds_witness :
    (([0] : List Nat).length ≤ 1
    ∧ ((([1] ++ [0]) : List Nat) ++ (([] : List (Nat × Except String String)).map Prod.fst)).Perm
        (List.range 2)
    ∧ (([] : List (Nat × Except String String)).map Prod.fst).Nodup
    ∧ (([1] : List Nat) = [] → ([0] : List Nat) = [] →
        ((([] : List (Nat × Except String String)).map Prod.fst).Perm (List.range 2)
          ∧ ([] : List (Nat × Except String String)).length = 2))
    ∧ (∀ i ∈ ([0] : List Nat),
        ExecStep trDemoE 1 ⟨[1], [0], []⟩ ⟨[1], [0].erase i, [] ++ [(i, trDemoE i)]⟩
        ∧ ([0].erase i).length + 1 = ([0] : List Nat).length)) :=
  concurrency_bound_holds trDemoE 1 2 (by decide) ⟨[1], [0], []⟩
    (Relation.ReflTransGen.single
      (ExecStep.start (initState (Except String String) 2) 0 (by decide) (by decide)))

/-- C5 (code bug): the scratch directory is removed on every exit path of
`ocr` — including when the caller passes `cleanup=False`.  The `cleanup`
parameter, documented as "Whether to cleanup temporary files", is never read:
`with tempfile.TemporaryDirectory()` deletes the directory and the rendered
images unconditionally, so `ocr env p cleanup = ocr env p true` for every
`cleanup`, and disabling cleanup does not preserve the images. -/
theorem cleanup_flag_ignored (env : OcrEnv) (file_path : String)
    (cleanup : Bool) :
    (ocr env file_path cleanup).scratchRemoved = true
    ∧ ocr env file_path false = ocr env file_path true := by
  refine ⟨?_, rfl⟩
  cases hR : renderedPages env (localName file_path) with
  | none => simp [ocr, hR]
  | some paths =>
    cases hB : processBatch env.tr paths with
    | error e => simp [ocr, hR, hB]
    | ok results =>
      cases hA : assembleContent results with
      | none => simp [ocr, hR, hB, hA]
      | some content => simp [ocr, hR, hB, hA]

/-- The input's extension matches none of the recognized sets, in the order
the branch chain of `ocr` tests them. -/
def unsupportedName (s : String) : Bool :=
  !(is_pptx_file s || is_image_file s || is_pdf_file s)

/-- C6 (amended): for every input whose (local) filename extension is
unrecognized, `ocr` fails with the unsupported-format error (the
`ValueError` of line 320, the spec's `UnsupportedFormatError`), no
vision-endpoint transcription call is made, and no fallback is attempted;
for a local-path input no network call at all precedes the failure, but for
a URL input the initial `download_file` fetch does occur before the
extension check (see the counterexample). -/
theorem unsupported_extension_rejected (env : OcrEnv) (file_path : String)
    (cleanup : Bool) (h : unsupportedName (localName file_path) = true) :
    (ocr env file_path cleanup).outcome
      = .error (.unsupported (localName file_path))
    ∧ (∀ p, Event.visionCall p ∉ (ocr env file_path cleanup).events)
    ∧ (isRemoteUrl file_path = false → (ocr env file_path cleanup).events = []) := by
  simp [unsupportedName] at h
  obtain ⟨⟨h1, h2⟩, h3⟩ := h
  have hrp : renderedPages env (localName file_path) = none := by
    simp [renderedPages, h1, h2, h3]
  refine ⟨by simp [ocr, hrp], ?_, ?_⟩
  · intro p
    simp only [ocr, hrp]
    cases hu : isRemoteUrl file_path <;> simp
  · intro hu
    simp [ocr, hrp, hu]

def envText : OcrEnv := ⟨fun p => .ok ("md:" ++ p), ["s1.png"], ["p1.png"]⟩

/-- C6 counterexample: for the URL input `http://example.com/notes.txt`
(unsupported extension `.txt`), `ocr` performs a remote network call — the
`download_file` HTTP fetch — before failing with the unsupported-format
error, so the claim "fails before any remote network call is made" is false
for URL inputs. -/
theorem unsupported_url_fetches_before_failing :
    (ocr envText "http://example.com/notes.txt" true).outcome
      = .error (.unsupported "notes.txt")
    ∧ Event.download ∈ (ocr envText "http://example.com/notes.txt" true).events :=
  ⟨rfl, by decide⟩

theorem unsupported_extension_rejected_witness :
    ((ocr envText "notes.txt" true).outcome
      = .error (.unsupported (localName "notes.txt"))
    ∧ (∀ p, Event.visionCall p ∉ (ocr envText "notes.txt" true).events)
    ∧ (isRemoteUrl "notes.txt" = false → (ocr envText "notes.txt" true).events = [])) :=
  unsupported_extension_rejected envText "notes.txt" true (by decide)

/-- C7: the text fallback produces exactly one synthesized 800x600
solid-white placeholder image per slide having at least one shape with
non-empty (stripped) text, named by the slide's 1-based position, in
ascending slide order, and no page for slides without such text; hence a
successful batch over these pages yields one result segment per non-blank
slide and zero for blank ones. -/
theorem pptx_fallback_placeholder_per_nonblank_slide (temp_dir : String)
    (slides : List Slide) :
    (pptx_to_images_fallback temp_dir slides).length
      = (slides.filter slideHasText).length
    ∧ (∀ img ∈ pptx_to_images_fallback temp_dir slides,
        img.width = 800 ∧ img.height = 600 ∧ img.color = "white"
        ∧ img.path = temp_dir ++ "/slide_" ++ toString img.slideNumber ++ ".png")
    ∧ ((pptx_to_images_fallback temp_dir slides).map
        PlaceholderImage.slideNumber).Pairwise (· < ·)
    ∧ (∀ (tr : String → Except String String) (ts : List String),
        processBatch tr ((pptx_to_images_fallback temp_dir slides).map
          PlaceholderImage.path) = .ok ts →
        ts.length = (slides.filter slideHasText).length) := by
  have hlen : (pptx_to_images_fallback temp_dir slides).length
      = (slides.filter slideHasText).length := by
    simp only [pptx_to_images_fallback, List.length_map]
    simpa [List.enum] using length_filter_enumFrom slideHasText 0 slides
  refine ⟨hlen, ?_, ?_, ?_⟩
  · intro img himg
    simp only [pptx_to_images_fallback, List.mem_map] at himg
    obtain ⟨p, hp, rfl⟩ := himg
    exact ⟨rfl, rfl, rfl, rfl⟩
  · have h0 : (slides.enum.map Prod.fst).Pairwise (· < ·) := by
      rw [List.enum_map_fst]
      exact List.pairwise_lt_range _
    have h1 : slides.enum.Pairwise (fun a b => a.1 < b.1) := List.pairwise_map.mp h0
    have h2 : (slides.enum.filter (fun p => slideHasText p.2)).Pairwise
        (fun a b => a.1 < b.1) :=
      h1.sublist (List.filter_sublist _)
    simp only [pptx_to_images_fallback, List.map_map]
    rw [List.pairwise_map]
    exact h2.imp (fun hab => Nat.succ_lt_succ hab)
  · intro tr ts hok
    rw [processBatch_ok_length hok, List.length_map]
    exact hlen

def demoSlides : List Slide :=
  [⟨[⟨true, "Title"⟩]⟩, ⟨[]⟩, ⟨[⟨true, "  "⟩, ⟨true, "End"⟩]⟩]

theorem pptx_fallback_placeholder_per_nonblank_slide_witness :
    (pptx_to_images_fallback "/scratch" demoSlides).length
      = (demoSlides.filter slideHasText).length :=
  (pptx_fallback_placeholder_per_nonblank_slide "/scratch" demoSlides).1

/-- C8: every failure mode of the native conversion stage of
`pptx_to_images` — executable lookup falsy, conversion timeout, any raised
exception (e.g. missing executable), non-zero exit code, missing output
PDF, or rasterisation failure — transitions to the text-extraction fallback;
a conversion-tool error is never surfaced out of the rendering stage, and
when the native stage does not fail the rasterised images are returned. -/
theorem conversion_tool_error_never_surfaced (soffice : Option String)
    (run : RunOutcome) (pdfCreated : Bool) (raster : Option (List String))
    (fb : List String) :
    (∀ msg, pptx_to_images soffice run pdfCreated raster fb ≠ .toolError msg)
    ∧ (nativeStageFails soffice run pdfCreated raster = true →
        ∃ cause, pptx_to_images soffice run pdfCreated raster fb
          = .fallbackUsed cause fb)
    ∧ (nativeStageFails soffice run pdfCreated raster = false →
        ∃ imgs, raster = some imgs
          ∧ pptx_to_images soffice run pdfCreated raster fb = .native imgs) := by
  by_cases h1 : pyFalsyStrOpt soffice = true
  · refine ⟨fun msg => by simp [pptx_to_images, h1], ?_, ?_⟩
    · exact fun _ => ⟨.execNotFound, by simp [pptx_to_images, h1]⟩
    · intro hf
      exact absurd hf (by simp [nativeStageFails, h1])
  · have h1' : pyFalsyStrOpt soffice = false := by simpa using h1
    cases run with
    | timeout =>
      refine ⟨fun msg => by simp [pptx_to_images, h1'], ?_, ?_⟩
      · exact fun _ => ⟨.timeout, by simp [pptx_to_images, h1']⟩
      · intro hf
        exact absurd hf (by simp [nativeStageFails, h1'])
    | raised =>
      refine ⟨fun msg => by simp [pptx_to_images, h1'], ?_, ?_⟩
      · exact fun _ => ⟨.exceptionCaught, by simp [pptx_to_images, h1']⟩
      · intro hf
        exact absurd hf (by simp [nativeStageFails, h1'])
    | exited rc =>
      by_cases h2 : rc = 0
      · subst h2
        by_cases h3 : pdfCreated = true
        · cases raster with
          | none =>
            refine ⟨fun msg => by simp [pptx_to_images, h1', h3], ?_, ?_⟩
            · exact fun _ => ⟨.exceptionCaught, by simp [pptx_to_images, h1', h3]⟩
            · intro hf
              exact absurd hf (by simp [nativeStageFails, h1', h3])
          | some imgs =>
            refine ⟨fun msg => by simp [pptx_to_images, h1', h3], ?_, ?_⟩
            · intro hf
              exact absurd hf (by simp [nativeStageFails, h1', h3])
            · exact fun _ => ⟨imgs, rfl, by simp [pptx_to_images, h1', h3]⟩
        · have h3' : pdfCreated = false := by simpa using h3
          refine ⟨fun msg => by simp [pptx_to_images, h1', h3'], ?_, ?_⟩
          · exact fun _ => ⟨.missingPdf, by simp [pptx_to_images, h1', h3']⟩
          · intro hf
            exact absurd hf (by simp [nativeStageFails, h1', h3'])
      · refine ⟨fun msg => by simp [pptx_to_images, h1', h2], ?_, ?_⟩
        · exact fun _ => ⟨.nonzeroExit rc, by simp [pptx_to_images, h1', h2]⟩
        · intro hf
          exact absurd hf (by simp [nativeStageFails, h1', h2])

theorem conversion_tool_error_never_surfaced_witness :
    pptx_to_images (some "soffice") RunOutcome.timeout true none ["fb1.png"]
      ≠ RenderOutcome.toolError "LibreOffice conversion failed"
    ∧ pptx_to_images (some "soffice") RunOutcome.timeout true none ["fb1.png"]
      = RenderOutcome.fallbackUsed FallbackCause.timeout ["fb1.png"] :=
  ⟨(conversion_tool_error_never_surfaced (some "soffice") RunOutcome.timeout
      true none ["fb1.png"]).1 "LibreOffice conversion failed", rfl⟩

/-- A deck whose slides have no non-empty shape text: one empty slide and
one slide with only whitespace text plus a shape without a text attribute. -/
def blankDeck : List Slide :=
  [⟨[]⟩, ⟨[⟨true, "   "⟩, ⟨false, "speaker notes"⟩]⟩]

/-- An `ocr` environment for the blank deck: the pptx renderer (text fallback,
conversion tool unavailable) yields the fallback's placeholder images. -/
def envBlankDeck : OcrEnv :=
  ⟨fun p => .ok ("md:" ++ p),
   (pptx_to_images_fallback "/scratch" blankDeck).map PlaceholderImage.path,
   []⟩

/-- C9: a valid supported input can produce an empty page-image list — a
`.pptx` all of whose slides lack non-empty text makes the text fallback
return no images — and on it `ocr` evaluates `results[0]` on an empty list,
failing with `IndexError` instead of returning an outcome with zero pages. -/
theorem empty_page_list_raises_index_error :
    pptx_to_images_fallback "/scratch" blankDeck = []
    ∧ renderedPages envBlankDeck (localName "deck.pptx") = some []
    ∧ (ocr envBlankDeck "deck.pptx" true).outcome = .error .indexError :=
  ⟨rfl, rfl, rfl⟩

/-- C10: `find_libreoffice_executable` always returns `some` non-empty
string — when neither the PATH probe nor any well-known install path
succeeds, it returns the first bare executable name — so the Python
truthiness guard `if not soffice_executable:` in `pptx_to_images` never
fires: the executable-not-found fallback cause is unreachable when the
executable comes from `find_libreoffice_executable`. -/
theorem find_libreoffice_always_truthy (st : FsEnv) :
    (∃ s, find_libreoffice_executable st = some s ∧ s ≠ "")
    ∧ pyFalsyStrOpt (find_libreoffice_executable st) = false
    ∧ ((∀ n, st.whichFound n = false) → (∀ p, st.execFile p = false) →
        find_libreoffice_executable st
          = some (if st.windows then "soffice.exe" else "soffice"))
    ∧ (∀ run pdfCreated raster fb cause imgs,
        pptx_to_images (find_libreoffice_executable st) run pdfCreated raster fb
          = .fallbackUsed cause imgs → cause ≠ .execNotFound) := by
  have hmain : ∃ s, find_libreoffice_executable st = some s ∧ s ≠ "" := by
    unfold find_libreoffice_executable
    cases hf : (executable_names st.windows).find? st.whichFound with
    | some n =>
      exact ⟨n, rfl,
        executable_names_ne_empty st.windows n (List.mem_of_find?_eq_some hf)⟩
    | none =>
      cases hg : (common_paths st.windows).find? st.execFile with
      | some p =>
        exact ⟨p, rfl,
          common_paths_ne_empty st.windows p (List.mem_of_find?_eq_some hg)⟩
      | none =>
        obtain ⟨n, hn, hne⟩ := executable_names_head st.windows
        exact ⟨n, hn, hne⟩
  obtain ⟨s, hs, hne⟩ := hmain
  have hfalsy : pyFalsyStrOpt (find_libreoffice_executable st) = false := by
    rw [hs]
    simp [pyFalsyStrOpt, hne]
  refine ⟨⟨s, hs, hne⟩, hfalsy, ?_, ?_⟩
  · intro hw hx
    have hf : (executable_names st.windows).find? st.whichFound = none :=
      List.find?_eq_none.mpr (fun x _ => by simp [hw x])
    have hg : (common_paths st.windows).find? st.execFile = none :=
      List.find?_eq_none.mpr (fun x _ => by simp [hx x])
    unfold find_libreoffice_executable
    rw [hf, hg]
    cases hwnd : st.windows <;> simp [executable_names]
  · intro run pdfCreated raster fb cause imgs heq hcause
    subst hcause
    rw [hs] at heq
    have hpf : pyFalsyStrOpt (some s) = false := by simp [pyFalsyStrOpt, hne]
    cases run with
    | timeout => simp [pptx_to_images, hpf] at heq
    | raised => simp [pptx_to_images, hpf] at heq
    | exited rc =>
      by_cases h2 : rc = 0
      · subst h2
        by_cases h3 : pdfCreated = true
        · cases raster with
          | none => simp [pptx_to_images, hpf, h3] at heq
          | some imgs' => simp [pptx_to_images, hpf, h3] at heq
        · have h3' : pdfCreated = false := by simpa using h3
          simp [pptx_to_images, hpf, h3'] at heq
      · simp [pptx_to_images, hpf, h2] at heq

def fsPlain : FsEnv := ⟨false, fun _ => false, fun _ => false⟩

theorem find_libreoffice_always_truthy_witness :
    pyFalsyStrOpt (find_libreoffice_executable fsPlain) = false :=
  (find_libreoffice_always_truthy fsPlain).2.1

end MiniOCR
